import Mathlib

/-!
# Verification of the sysforge backup/restore core

Shallow embedding of the file-selection, scan, archive and restore engine of
`src/sysforge/backup/` (filters.py, git.py, config.py, core.py,
compression.py, restore.py).  Paths are modelled as component lists of
character lists; machine strings are `List Char` so that matching and
reasoning stay executable and kernel-reducible.  Filesystem and subprocess
outcomes (existence, readability, stat results, git answers, write failures)
are explicit inputs of the embedded functions, exactly at the points where
the Python code consults them.
-/

/-- Character strings, as plain character lists (`str` values in the source). -/
abbrev Str := List Char

/-! ## fnmatch: Python's `fnmatch.fnmatch`, used by `_matches_patterns`,
`restore_archive`'s pattern filter and the override-pattern matching.
The pattern is translated once (`fnmatch.translate`) into tokens, which are
then matched against the whole name: `*` matches any sequence (including
`/`), `?` one character, `[...]`/`[!...]` a character class with ranges;
an unterminated `[` is a literal. -/

/-- One token of a translated glob pattern. -/
inductive GlobTok where
  | star : GlobTok
  | anyChar : GlobTok
  | lit : Char → GlobTok
  | cls : Bool → List (Char × Char) → GlobTok
deriving DecidableEq

/-- Scan for the closing `]` of a character class, returning the content
before it and the rest after it (`fnmatch.translate`'s bracket scan). -/
def findClose : Str → Option (Str × Str)
  | [] => none
  | ']' :: rest => some ([], rest)
  | c :: rest => (findClose rest).map (fun p => (c :: p.1, p.2))

/-- Split a bracket expression body (everything after `[`): a leading `!`
negates, a `]` immediately after `[` or `[!` is a literal member, and the
scan for the closing `]` starts after these, as in `fnmatch.translate`. -/
def bracketSplit (l : Str) : Option (Bool × Str × Str) :=
  match l with
  | '!' :: t =>
    match t with
    | ']' :: t2 => (findClose t2).map (fun p => (true, ']' :: p.1, p.2))
    | _ => (findClose t).map (fun p => (true, p.1, p.2))
  | ']' :: t2 => (findClose t2).map (fun p => (false, ']' :: p.1, p.2))
  | _ => (findClose l).map (fun p => (false, p.1, p.2))

/-- Parse the members of a character class into ranges: `a-b` is a range,
any other character stands for itself (a trailing `-` is a literal). -/
def parseRanges : Str → List (Char × Char)
  | a :: '-' :: b :: rest => (a, b) :: parseRanges rest
  | a :: rest => (a, a) :: parseRanges rest
  | [] => []

/-- Tokenise a glob pattern (the loop of `fnmatch.translate`).  The fuel is
the pattern length; every step consumes at least one character, so the fuel
never runs out when started at `pat.length`. -/
def compileGlobAux : Nat → Str → List GlobTok
  | 0, _ => []
  | _ + 1, [] => []
  | fuel + 1, '*' :: rest => GlobTok.star :: compileGlobAux fuel rest
  | fuel + 1, '?' :: rest => GlobTok.anyChar :: compileGlobAux fuel rest
  | fuel + 1, '[' :: rest =>
    match bracketSplit rest with
    | none => GlobTok.lit '[' :: compileGlobAux fuel rest
    | some (neg, content, after) =>
      GlobTok.cls neg (parseRanges content) :: compileGlobAux fuel after
  | fuel + 1, c :: rest => GlobTok.lit c :: compileGlobAux fuel rest

/-- Translate a glob pattern into tokens. -/
def compileGlob (pat : Str) : List GlobTok := compileGlobAux pat.length pat

/-- Does a character fall in one of the class ranges? -/
def inRanges (c : Char) (rs : List (Char × Char)) : Bool :=
  rs.any (fun p => decide (p.1 ≤ c) && decide (c ≤ p.2))

/-- Match a token list against a whole name (the anchored regex produced by
`fnmatch.translate`): `star` consumes any number of characters. -/
def tokMatch : List GlobTok → Str → Bool
  | [], s => s.isEmpty
  | GlobTok.star :: ps, s => (List.range (s.length + 1)).any (fun k => tokMatch ps (s.drop k))
  | GlobTok.anyChar :: ps, s =>
    match s with
    | [] => false
    | _ :: ss => tokMatch ps ss
  | GlobTok.lit c :: ps, s =>
    match s with
    | [] => false
    | c2 :: ss => c == c2 && tokMatch ps ss
  | GlobTok.cls neg rs :: ps, s =>
    match s with
    | [] => false
    | c :: ss => (neg != inRanges c rs) && tokMatch ps ss

/-- `fnmatch.fnmatch(name, pat)` on a POSIX system (where `normcase` is the
identity). -/
def fnmatchL (nameL patL : Str) : Bool := tokMatch (compileGlob patL) nameL

/-- `fnmatch.fnmatch` on machine strings. -/
def fnmatchS (nm pat : String) : Bool := fnmatchL nm.toList pat.toList

/-- Python's substring test `needle in hay`. -/
def subList (needle hay : Str) : Bool := hay.tails.any (fun t => needle.isPrefixOf t)

/-- Python's `pattern.replace('**/', '*/')` (left-to-right, non-overlapping). -/
def replaceSS : Str → Str
  | '*' :: '*' :: '/' :: rest => '*' :: '/' :: replaceSS rest
  | c :: rest => c :: replaceSS rest
  | [] => []

/-! ## Paths

A filesystem path is an absolute-flag plus a list of components (already
normalised, as `pathlib.Path` keeps them).  `str(path)`, `path.parts`,
`path.name` and `path.parent` are derived from this. -/

/-- Join components with `/` separators (`'/'.join(...)`). -/
def joinSlash : List Str → Str
  | [] => []
  | [c] => c
  | c :: rest => c ++ '/' :: joinSlash rest

/-- A normalised `pathlib.Path`: absolute-flag plus components. -/
structure GPath where
  absolute : Bool
  comps : List Str
deriving DecidableEq

/-- `str(path)`. -/
def pathStrL (p : GPath) : Str :=
  if p.absolute then '/' :: joinSlash p.comps else joinSlash p.comps

/-- `path.name` (last component; empty for the root). -/
def lastComp (p : GPath) : Str := p.comps.getLastD []

/-- `len(path.parts)`: an absolute path has the anchor `/` as an extra part. -/
def partsLen (p : GPath) : Nat :=
  if p.absolute then p.comps.length + 1 else p.comps.length

/-- `'/'.join(path.parts[1:])`: drop the anchor for an absolute path, the
first component for a relative one. -/
def tailJoin (p : GPath) : Str :=
  if p.absolute then joinSlash p.comps else joinSlash p.comps.tail

/-- The candidate strings `_matches_patterns` tries for one path: the full
path string, the tail after the first part when there is more than one part,
and the bare filename. -/
def variationsL (p : GPath) : List Str :=
  pathStrL p :: (if partsLen p > 1 then [tailJoin p] else []) ++ [lastComp p]

/-- The per-pattern body of `FileFilter._matches_patterns`: `**` patterns are
split by the position of `**`; other patterns are plain `fnmatch` globs.
Each branch is tried against every path variation. -/
def matchesOne (vars : List Str) (pat : Str) : Bool :=
  if subList ['*', '*'] pat then
    vars.any (fun rp =>
      if List.isPrefixOf ['*', '*', '/'] pat && List.isSuffixOf ['/', '*', '*'] pat then
        subList ('/' :: ((pat.drop 3).dropLast.dropLast.dropLast) ++ ['/']) rp ||
          List.isPrefixOf (((pat.drop 3).dropLast.dropLast.dropLast) ++ ['/']) rp ||
          List.isSuffixOf ('/' :: ((pat.drop 3).dropLast.dropLast.dropLast)) rp ||
          rp == ((pat.drop 3).dropLast.dropLast.dropLast)
      else if List.isPrefixOf ['*', '*', '/'] pat then
        List.isSuffixOf (pat.drop 3) rp || fnmatchL rp (pat.drop 3) ||
          subList ('/' :: pat.drop 3) rp
      else if List.isSuffixOf ['/', '*', '*'] pat then
        List.isPrefixOf (pat.dropLast.dropLast.dropLast ++ ['/']) rp ||
          subList ('/' :: pat.dropLast.dropLast.dropLast ++ ['/']) rp ||
          rp == pat.dropLast.dropLast.dropLast
      else
        fnmatchL rp (replaceSS pat))
  else
    vars.any (fun rp => fnmatchL rp pat)

/-- `FileFilter._matches_patterns(path, patterns)`: true when any pattern
matches any variation of the path. -/
def matchesPatterns (p : GPath) (patterns : List Str) : Bool :=
  patterns.any (fun pat => matchesOne (variationsL p) pat)

/-! ## Configuration and per-file environment

`BackupConfig` fields used by the filtering engine (`config.py`), and the
filesystem/git answers `should_include_file` consults for one path
(`filters.py`).  Everything the Python code learns from the OS or from git
is an explicit field. -/

/-- The slice of `BackupConfig` that drives filtering. -/
structure Config where
  alwaysExclude : List Str
  excludePatterns : List Str
  includePatterns : List Str
  overridePatterns : List Str
  respectGitignore : Bool
  includeGitDir : Bool
  includeRepos : Bool
  maxFileSizeBytes : Nat
deriving DecidableEq

/-- What `should_include_file` can learn about the repository owning a path:
whether the path lies under the repository's `.git` directory, and what
`GitRepository.is_ignored` answers for it. -/
structure RepoCtx where
  inGitDir : Bool
  ignored : Bool
deriving DecidableEq

/-- One path together with the filesystem/git answers the filter consults:
whether the existence/readability checks raise, their results, `is_file()`,
the `stat().st_size` outcome (`none` = `OSError`), and the owning repository
(`none` = not in a git repository). -/
structure FsFile where
  path : GPath
  accessRaises : Bool
  fexists : Bool
  readable : Bool
  isFile : Bool
  statSize : Option Nat
  repo : Option RepoCtx
deriving DecidableEq

/-- `BackupConfig.get_max_file_size_bytes`'s `int(...)` calls, restricted to
plain decimal digit strings (the only shape the configuration uses);
`none` models `ValueError`. -/
def digitsToNat : Str → Option Nat
  | [] => none
  | s =>
    if s.all Char.isDigit then
      some (s.foldl (fun a c => a * 10 + (c.toNat - 48)) 0)
    else none

/-- `BackupConfig.get_max_file_size_bytes()`: uppercase the size string, then
multiply by the unit suffix (`KB`/`MB`/`GB`) or read it as raw bytes. -/
def getMaxFileSizeBytes (s : String) : Option Nat :=
  let u := s.toList.map Char.toUpper
  if List.isSuffixOf ['K', 'B'] u then (digitsToNat (u.dropLast.dropLast)).map (· * 1024)
  else if List.isSuffixOf ['M', 'B'] u then
    (digitsToNat (u.dropLast.dropLast)).map (· * (1024 * 1024))
  else if List.isSuffixOf ['G', 'B'] u then
    (digitsToNat (u.dropLast.dropLast)).map (· * (1024 * 1024 * 1024))
  else digitsToNat u

/-- `FileFilter._check_file_size`: true iff the stat succeeds and the size
does not exceed the limit (a failing stat is treated as too large). -/
def checkFileSize (limit : Nat) (sz : Option Nat) : Bool :=
  match sz with
  | none => false
  | some n => if n > limit then false else true

/-! ## Selection policy (`FileFilter.should_include_file` and helpers) -/

/-- The existence/readability gate at the top of `should_include_file`
(`none` = the file passed, continue with the later rules). -/
def accessGate (f : FsFile) : Option (Bool × String) :=
  if f.accessRaises then some (false, "Permission denied")
  else if !f.fexists then some (false, "File does not exist")
  else if !f.readable then some (false, "File is not readable")
  else none

/-- The size gate of `should_include_file`: only regular files are sized;
a failing stat excludes, a size strictly above the limit excludes. -/
def sizeGate (cfg : Config) (f : FsFile) : Option (Bool × String) :=
  if f.isFile then
    match f.statSize with
    | none => some (false, "Cannot determine file size")
    | some sz =>
      if sz > cfg.maxFileSizeBytes then
        some (false, "File size (" ++ toString sz ++ " bytes) exceeds limit")
      else none
  else none

/-- `FileFilter._should_include_git_file`: `.git`-directory rule, then the
gitignore rule with override patterns (a matching override falls through to
the remaining checks), then exclude patterns, then include. -/
def shouldIncludeGitFile (cfg : Config) (p : GPath) (rc : RepoCtx) : Bool × String :=
  if rc.inGitDir then
    if cfg.includeGitDir then (true, "Git directory (included by config)")
    else (false, "Git directory (excluded by config)")
  else if cfg.respectGitignore && rc.ignored && !matchesPatterns p cfg.overridePatterns then
    (false, "File ignored by .gitignore")
  else if matchesPatterns p cfg.excludePatterns then
    (false, "File in git repository but matches exclude pattern")
  else (true, "File in git repository")

/-- `FileFilter._should_include_regular_file`. -/
def shouldIncludeRegularFile (cfg : Config) (p : GPath) : Bool × String :=
  if matchesPatterns p cfg.excludePatterns then (false, "Matches exclude pattern")
  else if cfg.includePatterns.isEmpty then (true, "No include patterns specified")
  else if matchesPatterns p cfg.includePatterns then (true, "Matches include pattern")
  else (false, "Does not match any include pattern")

/-- `FileFilter.should_include_file`: accessibility, then `always_exclude`,
then the size limit, then the repository/non-repository split. -/
def shouldIncludeFile (cfg : Config) (f : FsFile) : Bool × String :=
  match accessGate f with
  | some r => r
  | none =>
    if matchesPatterns f.path cfg.alwaysExclude then
      (false, "Matches always_exclude pattern")
    else
      match sizeGate cfg f with
      | some r => r
      | none =>
        match f.repo with
        | some rc => shouldIncludeGitFile cfg f.path rc
        | none => shouldIncludeRegularFile cfg f.path

/-- `FileFilter._filter_git_files`: size filter plus `always_exclude` filter
applied to the files enumerated from repositories. -/
def filterGitFiles (cfg : Config) (files : List FsFile) : List FsFile :=
  files.filter (fun f =>
    checkFileSize cfg.maxFileSizeBytes f.statSize && !matchesPatterns f.path cfg.alwaysExclude)

/-! ## Scan pipeline (`FileFilter.get_filtered_files`)

A returned `pathlib.Path` is represented by its `parts` tuple (which
determines it): the anchor `/` followed by the components for an absolute
path. -/

/-- `path.parts`, the representation of a returned `Path`. -/
def partsOf (p : GPath) : List Str :=
  if p.absolute then ['/'] :: p.comps else p.comps

/-- `FileFilter.get_filtered_files`: size-filter and fully filter the
candidates found outside repositories; when repositories were found and
`include_repos` is set, add the repository enumeration filtered by
`_filter_git_files` and deduplicate (`list(set(...))`); finally sort
(Python 3.11 orders `Path`s by their parts tuples). -/
def getFilteredFiles (cfg : Config) (hasRepos : Bool)
    (candidates gitFiles : List FsFile) : List (List Str) :=
  let filtered := candidates.filter (fun f =>
    checkFileSize cfg.maxFileSizeBytes f.statSize && (shouldIncludeFile cfg f).1)
  let allParts :=
    if hasRepos && cfg.includeRepos then
      ((filtered ++ filterGitFiles cfg gitFiles).map (fun f => partsOf f.path)).dedup
    else filtered.map (fun f => partsOf f.path)
  List.insertionSort (· ≤ ·) allParts

/-! ## Repository lookup (`GitDetector.get_repository_for_path`, git.py)

A directory level is a component list; `hasGit level` models
`(current / ".git").exists()` and `openOk level` models `git.Repo(current)`
succeeding (an exception there is caught and the walk continues upward). -/

/-- The upward walk of `get_repository_for_path`: test each level, stop at
the first level where a `.git` directory exists and the repository opens;
the loop runs `while current != current.parent`, i.e. until the root.  The
fuel is the number of components, which the walk consumes one per level. -/
def walkUpAux (q : List Str → Bool) : Nat → List Str → Option (List Str)
  | 0, _ => none
  | _ + 1, [] => none
  | n + 1, comps => if q comps then some comps else walkUpAux q n comps.dropLast

/-- Walk upward from a directory (component list) to the filesystem root. -/
def walkUp (q : List Str → Bool) (comps : List Str) : Option (List Str) :=
  walkUpAux q comps.length comps

/-- `GitDetector.get_repository_for_path`: first scan the cached
repositories for one whose root contains the path (`contains_path` is a
component-prefix test); on a miss, walk upward starting from the path
itself when it is a directory, else from its parent, and cache the root
found.  Returns the answer and the updated cache. -/
def getRepositoryForPath (cache : List (List Str)) (hasGit openOk : List Str → Bool)
    (pathIsDir : Bool) (path : List Str) : Option (List Str) × List (List Str) :=
  match cache.find? (fun root => root.isPrefixOf path) with
  | some r => (some r, cache)
  | none =>
    match walkUp (fun c => hasGit c && openOk c) (if pathIsDir then path else path.dropLast) with
    | some r => (some r, cache ++ [r])
    | none => (none, cache)

/-! ## `GitRepository.is_ignored` (git.py)

`file_path.relative_to(repo_root)` may raise `ValueError` (modelled as
`none`); `git check-ignore` either succeeds (the path is ignored) or raises
`GitCommandError` (modelled as `Except.error`).  Both failure modes are
caught inside `is_ignored`, which therefore always returns a `Bool` and
never propagates an exception. -/

/-- `GitRepository.is_ignored`. -/
def isIgnored (relPath : Option Str) (checkIgnore : Except Unit Unit) : Bool :=
  match relPath with
  | none => false
  | some _ =>
    match checkIgnore with
    | Except.ok _ => true
    | Except.error _ => false

/-! ## Restore engine (`RestoreOperation`, restore.py)

Archive entries carry a name and a file-flag; the live filesystem and the
per-entry extraction/backup-copy outcomes are explicit predicates on target
paths.  The interactive `prompt` strategy is console I/O (the spec treats it
as an external collaborator) and is not modelled; the three automatic
strategies are. -/

/-- One archive entry (`tarfile.TarInfo`): name and whether it is a file. -/
structure Member where
  name : String
  isfile : Bool
deriving DecidableEq

/-- A conflict record (`ConflictInfo`): the entry name and the colliding
live path. -/
structure CR where
  memberName : String
  existingPath : String
deriving DecidableEq

/-- The environment a restore runs against: which target paths already
exist, which extractions succeed, which backup copies succeed. -/
structure RestoreEnv where
  existsAt : String → Bool
  extractOk : String → Bool
  copyOk : String → Bool

/-- Automatic conflict-resolution strategies (`ConflictResolution` minus the
interactive `prompt`). -/
inductive Resolution where
  | overwrite : Resolution
  | skip : Resolution
  | backupFirst : Resolution
deriving DecidableEq

/-- The statistics dictionary returned by `RestoreOperation._get_stats`. -/
structure RStats where
  restored : Nat
  skipped : Nat
  errors : Nat
  conflicts : Nat
deriving DecidableEq

/-- The pattern-filter step of `restore_archive`: keep the entries whose
name `fnmatch`-matches the filter. -/
def filterMembers (pf : Option String) (ms : List Member) : List Member :=
  match pf with
  | some pat => ms.filter (fun m => fnmatchS m.name pat)
  | none => ms

/-- `RestoreOperation._get_target_path`. -/
def targetPathOf (tdir : Option String) (n : String) : String :=
  match tdir with
  | some d => d ++ "/" ++ n
  | none => n

/-- `RestoreOperation._detect_conflicts`: one `ConflictInfo` per file entry
whose computed target path exists on the live filesystem. -/
def detectConflicts (existsAt : String → Bool) (tdir : Option String)
    (ms : List Member) : List CR :=
  (ms.filter (fun m => m.isfile && existsAt (targetPathOf tdir m.name))).map
    (fun m => ⟨m.name, targetPathOf tdir m.name⟩)

/-- `RestoreOperation._handle_conflicts` for the automatic strategies:
returns the additions to `skipped_files` and to `errors` (a failed
backup copy is recorded as an error). -/
def handleConflicts (res : Resolution) (env : RestoreEnv) (conflicts : List CR) :
    List String × List (String × String) :=
  match res with
  | Resolution.overwrite => ([], [])
  | Resolution.skip => (conflicts.map (fun c => c.existingPath), [])
  | Resolution.backupFirst =>
    ([], (conflicts.filter (fun c => !env.copyOk c.existingPath)).map
      (fun c => (c.existingPath, "Failed to backup")))

/-- `RestoreOperation.restore_archive`: filter entries, detect conflicts,
resolve them (unless a dry run), extract the entries whose target is not in
the skip set, and report `_get_stats()`.  Note: `self.conflicts` is cleared
at the start and never reassigned — `_detect_conflicts`' result is bound to
a local variable only — so the `conflicts` stat counts the empty attribute. -/
def restoreArchive (res : Resolution) (env : RestoreEnv) (pf : Option String)
    (tdir : Option String) (dryRun : Bool) (ms0 : List Member) : RStats :=
  let conflictsSelf : List CR := []
  let members := filterMembers pf ms0
  let conflicts := detectConflicts env.existsAt tdir members
  let hc := if !conflicts.isEmpty && !dryRun then handleConflicts res env conflicts
            else ([], [])
  let skipped := hc.1
  let backupErrs := hc.2
  if dryRun then
    { restored := 0, skipped := skipped.length, errors := backupErrs.length,
      conflicts := conflictsSelf.length }
  else
    let toExtract := members.filter (fun m => !skipped.contains (targetPathOf tdir m.name))
    let restoredL := toExtract.filter (fun m => env.extractOk (targetPathOf tdir m.name))
    let extractErrs := (toExtract.filter (fun m => !env.extractOk (targetPathOf tdir m.name))).map
      (fun m => (targetPathOf tdir m.name, "extraction failed"))
    { restored := restoredL.length, skipped := skipped.length,
      errors := (backupErrs ++ extractErrs).length, conflicts := conflictsSelf.length }

/-! ## Archive writer (`BackupOperation._create_archive` over
`CompressedTarFile.add`, core.py / compression.py)

A selected file is a name plus whether `tarfile.add` raises
`OSError`/`PermissionError` for it at write time (file vanished or became
unreadable between selection and write). -/

/-- `CompressedTarFile.add`: the tar write may fail, but the
`except (OSError, PermissionError)` *inside* `add` catches the failure and
only prints a warning.  Returns (warning printed, exception propagated). -/
def ctfAdd (addRaises : Bool) : Option String × Option String :=
  if addRaises then (some "Warning: Could not add file", none) else (none, none)

/-- Outcome of `BackupOperation._create_archive` plus the success flag of
`_get_backup_info`. -/
structure ArchResult where
  processed : Nat
  skipped : Nat
  errors : List (String × String)
  warnings : List String
  archived : List String
deriving DecidableEq

/-- `BackupOperation._create_archive`: for each selected file call
`archive.add`; only a propagated `OSError`/`PermissionError` reaches the
`except` that records an error and counts a skip — a failure swallowed
inside `CompressedTarFile.add` increments `processed_files` and leaves the
error list untouched (the entry is simply absent from the archive). -/
def createArchive (files : List (String × Bool)) : ArchResult :=
  files.foldl (fun st f =>
    let wr := ctfAdd f.2
    match wr.2 with
    | some e => { st with errors := st.errors ++ [(f.1, e)], skipped := st.skipped + 1 }
    | none =>
      { st with processed := st.processed + 1,
                archived := st.archived ++ (if f.2 then [] else [f.1]),
                warnings := st.warnings ++ wr.1.toList })
    ⟨0, 0, [], [], []⟩

/-- `_get_backup_info`'s success flag: no recorded errors means success. -/
def backupSuccess (r : ArchResult) : Bool := r.errors.isEmpty

/-! ## Claim-side formalisations (for comparison against the code)

Two spec sentences are formalised verbatim so that they can be compared
with the corresponding source functions. -/

/-- The spec's description of `**/suffix` matching (§4.1): the path's final
component glob-matches `suffix`, or the path's tail after stripping a
leading slash glob-matches `suffix`, or the path ends with `/suffix`.
Formalised from the spec's words, to be compared with `matchesPatterns`. -/
def specSuffixMatch (p : GPath) (suffix : Str) : Bool :=
  fnmatchL (lastComp p) suffix ||
  fnmatchL (if p.absolute then joinSlash p.comps else pathStrL p) suffix ||
  List.isSuffixOf ('/' :: suffix) (pathStrL p)

/-- The spec's description of `ownerOf` (§4.2): on a cache miss, walk upward
from the path — or from its *parent*, if the path is itself a directory.
Formalised from the spec's words, to be compared with
`getRepositoryForPath`. -/
def claimOwnerOf (cache : List (List Str)) (hasGit openOk : List Str → Bool)
    (pathIsDir : Bool) (path : List Str) : Option (List Str) :=
  match cache.find? (fun root => root.isPrefixOf path) with
  | some r => some r
  | none =>
    walkUp (fun c => hasGit c && openOk c) (if pathIsDir then path.dropLast else path)

/-! ## Concrete fixtures used by witnesses and counterexamples -/

/-- Configuration with a `.DS_Store` always-exclude and an `.env` override. -/
def cfgW : Config :=
  ⟨[("**/.DS_Store").toList], [], [], [("**/.env").toList], true, true, true, 1024⟩

/-- Configuration with empty pattern lists (gitignore respected). -/
def cfgGit : Config := ⟨[], [], [], [("**/.env").toList], true, true, true, 1024⟩

/-- Configuration with max file size 1024 bytes and empty pattern lists. -/
def cfg1k : Config := ⟨[], [], [], [], true, true, true, 1024⟩

/-- An accessible `/home/.DS_Store` outside any repository. -/
def fDSStore : FsFile :=
  ⟨⟨true, [("home").toList, (".DS_Store").toList]⟩, false, true, true, true, some 10, none⟩

/-- An accessible `/home/ok.txt` outside any repository. -/
def fPlain : FsFile :=
  ⟨⟨true, [("home").toList, ("ok.txt").toList]⟩, false, true, true, true, some 10, none⟩

/-- A gitignored `/repo/debug.log` inside a repository. -/
def fDebugLog : FsFile :=
  ⟨⟨true, [("repo").toList, ("debug.log").toList]⟩, false, true, true, true, some 10,
    some ⟨false, true⟩⟩

/-- A gitignored `/repo/.env` inside a repository. -/
def fEnv : FsFile :=
  ⟨⟨true, [("repo").toList, (".env").toList]⟩, false, true, true, true, some 10,
    some ⟨false, true⟩⟩

/-- An accessible 1024-byte file `/big.bin` outside any repository. -/
def f1024 : FsFile := ⟨⟨true, [("big.bin").toList]⟩, false, true, true, true, some 1024, none⟩

/-- An accessible 1025-byte file `/big.bin` outside any repository. -/
def f1025 : FsFile := ⟨⟨true, [("big.bin").toList]⟩, false, true, true, true, some 1025, none⟩

/-- Accessible `/x`, `/y`, `/z` outside any repository. -/
def fX : FsFile := ⟨⟨true, [("x").toList]⟩, false, true, true, true, some 1, none⟩

/-- See `fX`. -/
def fY : FsFile := ⟨⟨true, [("y").toList]⟩, false, true, true, true, some 1, none⟩

/-- See `fX`. -/
def fZ : FsFile := ⟨⟨true, [("z").toList]⟩, false, true, true, true, some 1, none⟩

/-- The relative path `mydebug.txt`. -/
def pMydebug : GPath := ⟨false, [("mydebug.txt").toList]⟩

/-- A restore environment where every target exists and every operation
succeeds. -/
def envAll : RestoreEnv := ⟨fun _ => true, fun _ => true, fun _ => true⟩

/-- A restore environment over a fresh target (nothing exists; every
operation succeeds). -/
def envFresh : RestoreEnv := ⟨fun _ => false, fun _ => true, fun _ => true⟩

/-- The archive entry `f.txt`. -/
def memF : Member := ⟨"f.txt", true⟩

/-- The archive entry `a.py`. -/
def memA : Member := ⟨"a.py", true⟩

/-- The archive entry `b.txt`. -/
def memB : Member := ⟨"b.txt", true⟩

/-- `.git` exists (and the repository opens) exactly at `/a/b`. -/
def hgAB : List Str → Bool := fun c => c == [("a").toList, ("b").toList]

/-- Every repository open succeeds. -/
def okAll : List Str → Bool := fun _ => true

/-! ## Claim theorems -/

/-- C9: `is_ignored` fails closed — whenever the path cannot be made
repository-relative (`relative_to` raises `ValueError`) or the underlying
`git check-ignore` command fails (`GitCommandError`), `is_ignored` returns
`false` (not ignored); being a total `Bool`-valued function, it never
propagates the error to the caller. -/
theorem isIgnoredFailsClosed : ∀ (rel : Option Str) (chk : Except Unit Unit),
    rel = none ∨ chk = Except.error () → isIgnored rel chk = false := by
  intro rel chk h
  rcases h with h | h
  · subst h; rfl
  · subst h; cases rel <;> rfl

/-- Witness for `isIgnoredFailsClosed`: a path that cannot be made relative,
and a path whose ignore-check command fails. -/
theorem isIgnoredFailsClosedWitness :
    isIgnored none (Except.ok ()) = false ∧
    isIgnored (some (("x").toList)) (Except.error ()) = false :=
  ⟨isIgnoredFailsClosed none (Except.ok ()) (Or.inl rfl),
   isIgnoredFailsClosed (some (("x").toList)) (Except.error ()) (Or.inr rfl)⟩

/-- C10: the maximum-file-size limit is exclusive at the boundary.
`get_max_file_size_bytes("1KB") = 1024`; `_check_file_size` accepts exactly
the sizes `≤` the limit; the size gate of `should_include_file` passes a
file whose size equals the limit and excludes (with the size reason) one
whose size strictly exceeds it. -/
theorem maxFileSizeBoundary :
    getMaxFileSizeBytes ("1KB") = some 1024 ∧
    (∀ limit sz : Nat, checkFileSize limit (some sz) = true ↔ sz ≤ limit) ∧
    (∀ cfg f sz, f.isFile = true → f.statSize = some sz → sz ≤ cfg.maxFileSizeBytes →
      sizeGate cfg f = none) ∧
    (∀ cfg f sz, f.isFile = true → f.statSize = some sz → cfg.maxFileSizeBytes < sz →
      sizeGate cfg f = some (false, "File size (" ++ toString sz ++ " bytes) exceeds limit")) := by
  refine ⟨by decide, ?_, ?_, ?_⟩
  · intro limit sz
    simp only [checkFileSize]
    split <;> rename_i h
    · simp; omega
    · simp; omega
  · intro cfg f sz h1 h2 h3
    simp only [sizeGate, h1, if_true, h2]
    rw [if_neg (by omega)]
  · intro cfg f sz h1 h2 h3
    simp only [sizeGate, h1, if_true, h2]
    rw [if_pos (by omega)]

/-- Witness for `maxFileSizeBoundary`: with the 1KB limit, a 1024-byte file
passes both size checks and a 1025-byte file is excluded with a size
reason. -/
theorem maxFileSizeBoundaryWitness :
    checkFileSize 1024 (some 1024) = true ∧ sizeGate cfg1k f1024 = none ∧
    sizeGate cfg1k f1025 = some (false, "File size (1025 bytes) exceeds limit") :=
  ⟨(maxFileSizeBoundary.2.1 1024 1024).mpr (by decide),
   maxFileSizeBoundary.2.2.1 cfg1k f1024 1024 rfl rfl (by decide),
   maxFileSizeBoundary.2.2.2 cfg1k f1025 1025 rfl rfl (by decide)⟩

/-- C3 (code bug): on an archive with the single file entry `f.txt` whose
target exists on the live filesystem, `_detect_conflicts` produces one
`ConflictInfo`, yet the returned statistics report `conflicts = 0`
(`restore_archive` clears `self.conflicts` and never repopulates it — the
detection result is bound to a local variable only), while the file is
still restored. -/
theorem restoreConflictsStatBug :
    (detectConflicts envAll.existsAt none (filterMembers none [memF])).length = 1 ∧
    (restoreArchive Resolution.overwrite envAll none none false [memF]).conflicts = 0 ∧
    (restoreArchive Resolution.overwrite envAll none none false [memF]).restored = 1 := by
  decide

/-- C4 counterexample: with `pattern_filter = "**/*.py"` on an archive
containing exactly `a.py` and `b.txt`, the filtering step retains *no*
entry (Python's `fnmatch` translates `**/` to a regex that requires a
literal `/` in the entry name), not exactly `a.py` as claimed. -/
theorem patternFilterCounterexample :
    filterMembers (some ("**/*.py")) [memA, memB] = [] ∧
    filterMembers (some ("**/*.py")) [memA, memB] ≠ [memA] := by
  decide

/-- C4 amended: a restore retains exactly the entries whose full name
`fnmatch`-matches the filter; for `"**/*.py"` against entries named `a.py`
and `b.txt` (no directory component) nothing is retained and nothing is
extracted, while the filter `"*.py"` retains exactly `a.py`. -/
theorem patternFilterAmended :
    filterMembers (some ("**/*.py")) [memA, memB] = [] ∧
    (restoreArchive Resolution.overwrite envFresh (some ("**/*.py")) none false
      [memA, memB]).restored = 0 ∧
    filterMembers (some ("*.py")) [memA, memB] = [memA] := by
  decide

/-- C6 (code bug): archiving two selected files where the first raises
`OSError` inside the tar write (it vanished between selection and write):
the failure is swallowed inside `CompressedTarFile.add` (a warning is
printed), so the operation's error list stays empty, both files count as
processed, the backup reports success — and only the second file is
actually in the archive.  The write failure does not abort the archiving of
the remaining file, but contrary to the claim it is never recorded in the
error list. -/
theorem archiveErrorSwallowedBug :
    createArchive [("gone.txt", true), ("ok.txt", false)] =
      ⟨2, 0, [], ["Warning: Could not add file"], ["ok.txt"]⟩ ∧
    backupSuccess (createArchive [("gone.txt", true), ("ok.txt", false)]) = true := by
  decide

/-- C5 counterexample: the relative path `mydebug.txt` matches the pattern
`**/debug.txt` in `_matches_patterns` (via the raw-string `endswith`
check), but the spec's characterisation — final component or stripped tail
glob-matches `debug.txt`, or the path ends with `/debug.txt` — is false for
it. -/
theorem suffixPatternCounterexample :
    matchesPatterns pMydebug [("**/debug.txt").toList] = true ∧
    specSuffixMatch pMydebug (("debug.txt").toList) = false := by
  decide

/-- C7 counterexample: for the directory `/a/b` that is itself a repository
root (with an empty cache), `get_repository_for_path` starts the upward
walk at `/a/b` itself and returns that repository, whereas the claim's
walk — starting from the parent because the path is a directory — finds
nothing. -/
theorem ownerOfCounterexample :
    (getRepositoryForPath [] hgAB okAll true [("a").toList, ("b").toList]).1 =
      some [("a").toList, ("b").toList] ∧
    claimOwnerOf [] hgAB okAll true [("a").toList, ("b").toList] = none := by
  decide

/-- C5 amended: for a pattern `**/suffix` (starting with `**/`, not ending
with `/**`), `_matches_patterns` returns true iff some variation of the
path — the full path string; the tail after the first part, when the path
has more than one part; the final component — ends with `suffix` as a raw
string, or glob-matches `suffix`, or contains `/suffix` as a substring
(anywhere, not only at the end). -/
theorem suffixPatternAmended (p : GPath) (suffix : Str)
    (h : List.isSuffixOf ['/', '*', '*'] ('*' :: '*' :: '/' :: suffix) = false) :
    matchesPatterns p ['*' :: '*' :: '/' :: suffix] =
      (variationsL p).any (fun rp =>
        List.isSuffixOf suffix rp || fnmatchL rp suffix || subList ('/' :: suffix) rp) := by
  have h1 : subList ['*', '*'] ('*' :: '*' :: '/' :: suffix) = true := by
    simp [subList, List.tails_cons, List.any_cons, List.isPrefixOf]
  have h2 : List.isPrefixOf ['*', '*', '/'] ('*' :: '*' :: '/' :: suffix) = true := by
    simp [List.isPrefixOf]
  simp only [matchesPatterns, List.any_cons, List.any_nil, Bool.or_false, matchesOne, h1, h2,
    h, Bool.and_false, Bool.false_eq_true, if_false, if_true, List.drop_succ_cons,
    List.drop_zero]

/-- Witness for `suffixPatternAmended` at the path `/repo/x/debug.txt` and
the pattern `**/debug.txt`. -/
theorem suffixPatternAmendedWitness :
    matchesPatterns ⟨true, [("repo").toList, ("x").toList, ("debug.txt").toList]⟩
        ['*' :: '*' :: '/' :: ("debug.txt").toList] =
      (variationsL ⟨true, [("repo").toList, ("x").toList, ("debug.txt").toList]⟩).any
        (fun rp =>
          List.isSuffixOf (("debug.txt").toList) rp ||
            fnmatchL rp (("debug.txt").toList) ||
            subList ('/' :: ("debug.txt").toList) rp) :=
  suffixPatternAmended ⟨true, [("repo").toList, ("x").toList, ("debug.txt").toList]⟩
    (("debug.txt").toList) (by decide)

/-- Helper: on fuel equal to the length, the upward walk returns `none` iff
no nonempty prefix-ancestor (the `take k` for `0 < k ≤ length`) satisfies
the test. -/
theorem walkUpAux_none_iff (q : List Str → Bool) :
    ∀ (n : Nat) (l : List Str), l.length = n →
      (walkUpAux q n l = none ↔ ∀ k, 0 < k → k ≤ n → q (l.take k) = false) := by
  intro n
  induction n with
  | zero =>
    intro l hl
    constructor
    · intro _ k hk1 hk2
      omega
    · intro _
      rfl
  | succ m ih =>
    intro l hl
    cases l with
    | nil => simp at hl
    | cons a as =>
      have hlen : as.length = m := by simpa using hl
      have hdrop : (a :: as).dropLast.length = m := by
        simp [hlen]
      have htake : ∀ k, k ≤ m → (a :: as).dropLast.take k = (a :: as).take k := by
        intro k hk
        rw [List.dropLast_eq_take, List.take_take]
        congr 1
        simp [hlen]
        omega
      rw [show walkUpAux q (m + 1) (a :: as) =
            if q (a :: as) then some (a :: as) else walkUpAux q m (a :: as).dropLast from rfl]
      by_cases hqc : q (a :: as) = true
      · rw [if_pos hqc]
        constructor
        · intro hsome
          simp at hsome
        · intro hall
          exfalso
          have hx := hall (m + 1) (by omega) (le_refl _)
          rw [List.take_of_length_le (by simp [hlen])] at hx
          simp [hqc] at hx
      · rw [if_neg hqc]
        have hq' : q (a :: as) = false := by
          cases hgg : q (a :: as) with
          | false => rfl
          | true => exact absurd hgg hqc
        rw [ih (a :: as).dropLast hdrop]
        constructor
        · intro hall k hk1 hk2
          rcases Nat.lt_or_ge k (m + 1) with hlt | hge
          · have hk3 : k ≤ m := by omega
            have hx := hall k hk1 hk3
            rwa [htake k hk3] at hx
          · have hkeq : k = m + 1 := by omega
            subst hkeq
            rw [List.take_of_length_le (by simp [hlen])]
            exact hq'
        · intro hall k hk1 hk2
          rw [htake k hk2]
          exact hall k hk1 (by omega)

/-- Helper: a repository returned by the upward walk satisfies the test, is
a prefix-ancestor of the start, and is the deepest such ancestor (every
strictly longer nonempty ancestor fails the test). -/
theorem walkUpAux_eq_some (q : List Str → Bool) :
    ∀ (n : Nat) (l r : List Str), l.length = n → walkUpAux q n l = some r →
      q r = true ∧ ∃ k, 0 < k ∧ k ≤ n ∧ r = l.take k ∧
        ∀ j, k < j → j ≤ n → q (l.take j) = false := by
  intro n
  induction n with
  | zero =>
    intro l r hl hsome
    exact absurd hsome (by simp [walkUpAux])
  | succ m ih =>
    intro l r hl hsome
    cases l with
    | nil => simp at hl
    | cons a as =>
      have hlen : as.length = m := by simpa using hl
      have hdrop : (a :: as).dropLast.length = m := by
        simp [hlen]
      have htake : ∀ k, k ≤ m → (a :: as).dropLast.take k = (a :: as).take k := by
        intro k hk
        rw [List.dropLast_eq_take, List.take_take]
        congr 1
        simp [hlen]
        omega
      rw [show walkUpAux q (m + 1) (a :: as) =
            if q (a :: as) then some (a :: as) else walkUpAux q m (a :: as).dropLast from
          rfl] at hsome
      by_cases hqc : q (a :: as) = true
      · rw [if_pos hqc] at hsome
        have hr : r = a :: as := by
          cases hsome
          rfl
        subst hr
        refine ⟨hqc, m + 1, by omega, le_refl _, ?_, ?_⟩
        · rw [List.take_of_length_le (by simp [hlen])]
        · intro j hj1 hj2
          omega
      · rw [if_neg hqc] at hsome
        have hq' : q (a :: as) = false := by
          cases hgg : q (a :: as) with
          | false => rfl
          | true => exact absurd hgg hqc
        obtain ⟨hqr, k, hk1, hk2, hk3, hk4⟩ := ih (a :: as).dropLast r hdrop hsome
        refine ⟨hqr, k, hk1, by omega, ?_, ?_⟩
        · rw [← htake k hk2]
          exact hk3
        · intro j hj1 hj2
          rcases Nat.lt_or_ge j (m + 1) with hlt | hge
          · have hj3 : j ≤ m := by omega
            rw [← htake j hj3]
            exact hk4 j hj1 hj3
          · have hjeq : j = m + 1 := by omega
            subst hjeq
            rw [List.take_of_length_le (by simp [hlen])]
            exact hq'

/-- C7 amended: for a queried path whose owning repository is not cached,
`get_repository_for_path` walks upward starting from the path itself when
the path is a directory (or from its parent when it is not), testing each
level for a `.git` directory that opens as a repository; it returns `none`
iff no nonempty prefix-ancestor of the start passes the test, and when it
returns a repository, that repository passes the test, is the deepest
passing ancestor, and has been added to the cache. -/
theorem ownerOfAmended :
    ∀ (cache : List (List Str)) (hasGit openOk : List Str → Bool) (pathIsDir : Bool)
      (path : List Str),
      cache.find? (fun root => root.isPrefixOf path) = none →
      ((getRepositoryForPath cache hasGit openOk pathIsDir path).1 =
         walkUp (fun c => hasGit c && openOk c)
           (if pathIsDir then path else path.dropLast)) ∧
      ((getRepositoryForPath cache hasGit openOk pathIsDir path).1 = none ↔
        ∀ k, 0 < k → k ≤ (if pathIsDir then path else path.dropLast).length →
          (hasGit ((if pathIsDir then path else path.dropLast).take k) &&
            openOk ((if pathIsDir then path else path.dropLast).take k)) = false) ∧
      (∀ r, (getRepositoryForPath cache hasGit openOk pathIsDir path).1 = some r →
        (hasGit r && openOk r) = true ∧
        (∃ k, 0 < k ∧ k ≤ (if pathIsDir then path else path.dropLast).length ∧
          r = (if pathIsDir then path else path.dropLast).take k ∧
          ∀ j, k < j → j ≤ (if pathIsDir then path else path.dropLast).length →
            (hasGit ((if pathIsDir then path else path.dropLast).take j) &&
              openOk ((if pathIsDir then path else path.dropLast).take j)) = false) ∧
        r ∈ (getRepositoryForPath cache hasGit openOk pathIsDir path).2) := by
  intro cache hasGit openOk pathIsDir path hfind
  cases hw : walkUp (fun c => hasGit c && openOk c)
      (if pathIsDir then path else path.dropLast) with
  | none =>
    have hres : getRepositoryForPath cache hasGit openOk pathIsDir path = (none, cache) := by
      simp only [getRepositoryForPath, hfind, hw]
    refine ⟨by rw [hres], ?_, ?_⟩
    · rw [hres]
      exact iff_of_true rfl
        ((walkUpAux_none_iff (fun c => hasGit c && openOk c)
          (if pathIsDir then path else path.dropLast).length
          (if pathIsDir then path else path.dropLast) rfl).mp hw)
    · intro r hr
      rw [hres] at hr
      simp at hr
  | some r0 =>
    have hres : getRepositoryForPath cache hasGit openOk pathIsDir path =
        (some r0, cache ++ [r0]) := by
      simp only [getRepositoryForPath, hfind, hw]
    obtain ⟨hqr, k, hk1, hk2, hk3, hk4⟩ :=
      walkUpAux_eq_some (fun c => hasGit c && openOk c)
        (if pathIsDir then path else path.dropLast).length
        (if pathIsDir then path else path.dropLast) r0 rfl hw
    have hqr2 : (hasGit r0 && openOk r0) = true := hqr
    refine ⟨by rw [hres], ?_, ?_⟩
    · rw [hres]
      constructor
      · intro hx
        simp at hx
      · intro hall
        exfalso
        have hx := hall k hk1 hk2
        rw [← hk3] at hx
        rw [hqr2] at hx
        exact absurd hx (by simp)
    · intro r hr
      rw [hres] at hr
      have hrr : r0 = r := by simpa using hr
      subst hrr
      refine ⟨hqr2, ⟨k, hk1, hk2, hk3, hk4⟩, ?_⟩
      rw [hres]
      simp

/-- Witness for `ownerOfAmended`: with an empty cache, querying the
directory `/a/b` (which is a repository root) returns the result of the
upward walk started at `/a/b` itself. -/
theorem ownerOfAmendedWitness :
    (getRepositoryForPath [] hgAB okAll true [("a").toList, ("b").toList]).1 =
      walkUp (fun c => hgAB c && okAll c) [("a").toList, ("b").toList] :=
  (ownerOfAmended [] hgAB okAll true [("a").toList, ("b").toList] rfl).1

/-- C8: the list returned by `get_filtered_files` is sorted (Python `Path`
order = lexicographic order on the parts tuples) and duplicate-free — the
repository branch deduplicates via `list(set(...))` unconditionally, and
without that branch the output paths are a sublist of the candidate paths,
so it suffices that the enumeration produced no duplicate path; and the
result is invariant under any reordering of the two enumerations (as
produced by scheduling of parallel workers), so two scans over an unchanged
tree with unchanged configuration yield identical lists. -/
theorem scanSortedDedupDeterministic :
    (∀ (cfg : Config) (hr : Bool) (cand git : List FsFile),
      List.Sorted (· ≤ ·) (getFilteredFiles cfg hr cand git)) ∧
    (∀ (cfg : Config) (hr : Bool) (cand git : List FsFile),
      (cand.map (fun f => partsOf f.path)).Nodup →
      (getFilteredFiles cfg hr cand git).Nodup) ∧
    (∀ (cfg : Config) (hr : Bool) (c1 g1 c2 g2 : List FsFile),
      c1.Perm c2 → g1.Perm g2 →
      getFilteredFiles cfg hr c1 g1 = getFilteredFiles cfg hr c2 g2) := by
  refine ⟨?_, ?_, ?_⟩
  · intro cfg hr cand git
    exact List.sorted_insertionSort (· ≤ ·) _
  · intro cfg hr cand git hnd
    have key : ∀ l : List (List Str), l.Nodup → (List.insertionSort (· ≤ ·) l).Nodup :=
      fun l h => (List.Perm.nodup_iff (List.perm_insertionSort (· ≤ ·) l)).mpr h
    simp only [getFilteredFiles]
    cases hbr : (hr && cfg.includeRepos) with
    | true =>
      simp only [hbr, if_true]
      exact key _ (List.nodup_dedup _)
    | false =>
      simp only [hbr, Bool.false_eq_true, if_false]
      apply key
      have hsub : ((cand.filter (fun f =>
          checkFileSize cfg.maxFileSizeBytes f.statSize &&
            (shouldIncludeFile cfg f).1)).map (fun f => partsOf f.path)).Sublist
          (cand.map (fun f => partsOf f.path)) :=
        (List.filter_sublist _).map _
      exact hnd.sublist hsub
  · intro cfg hr c1 g1 c2 g2 hc hg
    have hfil : (c1.filter (fun f => checkFileSize cfg.maxFileSizeBytes f.statSize &&
        (shouldIncludeFile cfg f).1)).Perm (c2.filter (fun f =>
        checkFileSize cfg.maxFileSizeBytes f.statSize && (shouldIncludeFile cfg f).1)) :=
      hc.filter _
    have hgit : (filterGitFiles cfg g1).Perm (filterGitFiles cfg g2) := hg.filter _
    simp only [getFilteredFiles]
    cases hbr : (hr && cfg.includeRepos) with
    | true =>
      simp only [hbr, if_true]
      exact List.eq_of_perm_of_sorted
        (((List.perm_insertionSort _ _).trans
          (((hfil.append hgit).map _).dedup)).trans
          (List.perm_insertionSort _ _).symm)
        (List.sorted_insertionSort _ _) (List.sorted_insertionSort _ _)
    | false =>
      simp only [hbr, Bool.false_eq_true, if_false]
      exact List.eq_of_perm_of_sorted
        (((List.perm_insertionSort _ _).trans (hfil.map _)).trans
          (List.perm_insertionSort _ _).symm)
        (List.sorted_insertionSort _ _) (List.sorted_insertionSort _ _)

/-- Witness for `scanSortedDedupDeterministic`: a concrete scan over
`/x`, `/y` (in either order) with repository file `/z` is sorted,
duplicate-free, and independent of the enumeration order. -/
theorem scanSortedDedupDeterministicWitness :
    List.Sorted (· ≤ ·) (getFilteredFiles cfgGit true [fX, fY] [fZ]) ∧
    (getFilteredFiles cfgGit true [fX, fY] [fZ]).Nodup ∧
    getFilteredFiles cfgGit true [fX, fY] [fZ] = getFilteredFiles cfgGit true [fY, fX] [fZ] :=
  ⟨scanSortedDedupDeterministic.1 cfgGit true [fX, fY] [fZ],
   scanSortedDedupDeterministic.2.1 cfgGit true [fX, fY] [fZ] (by decide),
   scanSortedDedupDeterministic.2.2 cfgGit true [fX, fY] [fZ] [fY, fX] [fZ]
     (List.Perm.swap fY fX []) (List.Perm.refl [fZ])⟩

/-- C1: `always_exclude` always wins.  For every accessible path (the
existence/readability gate passes) that matches an `always_exclude`
pattern, `should_include_file` excludes it — regardless of repository
membership, include patterns, or gitignore-override patterns, since the
check precedes all of them; and every repository-enumerated file matching
an `always_exclude` pattern is removed by `_filter_git_files` (no file in
its output matches such a pattern). -/
theorem alwaysExcludeWins :
    (∀ (cfg : Config) (f : FsFile), accessGate f = none →
      matchesPatterns f.path cfg.alwaysExclude = true →
      shouldIncludeFile cfg f = (false, "Matches always_exclude pattern")) ∧
    (∀ (cfg : Config) (files : List FsFile) (f : FsFile), f ∈ filterGitFiles cfg files →
      matchesPatterns f.path cfg.alwaysExclude = false) := by
  constructor
  · intro cfg f hacc hmatch
    simp only [shouldIncludeFile, hacc, hmatch, if_true]
  · intro cfg files f hf
    have := List.of_mem_filter hf
    simp only [Bool.and_eq_true, Bool.not_eq_true'] at this
    exact this.2

/-- Witness for `alwaysExcludeWins`: the accessible `/home/.DS_Store` is
excluded by the always-exclude pattern `**/.DS_Store`, and a surviving
output of `_filter_git_files` does not match any always-exclude pattern. -/
theorem alwaysExcludeWinsWitness :
    shouldIncludeFile cfgW fDSStore = (false, "Matches always_exclude pattern") ∧
    matchesPatterns fPlain.path cfgW.alwaysExclude = false :=
  ⟨alwaysExcludeWins.1 cfgW fDSStore rfl (by decide),
   alwaysExcludeWins.2 cfgW [fPlain] fPlain (by decide)⟩

/-- C2: the gitignore-override decision.  For a file owned by a repository,
with `respect_gitignore` on and the VCS reporting it ignored, that passed
the earlier gates (accessible, not always-excluded, within the size limit)
and is not under the `.git` directory: if it matches no
`gitignore_override_patterns` entry it is excluded with reason "File
ignored by .gitignore"; if it does match an override pattern and matches no
exclude pattern, it is included. -/
theorem gitignoreOverrideDecision :
    ∀ (cfg : Config) (f : FsFile) (rc : RepoCtx),
      accessGate f = none →
      matchesPatterns f.path cfg.alwaysExclude = false →
      sizeGate cfg f = none →
      f.repo = some rc →
      rc.inGitDir = false →
      cfg.respectGitignore = true →
      rc.ignored = true →
      (matchesPatterns f.path cfg.overridePatterns = false →
        shouldIncludeFile cfg f = (false, "File ignored by .gitignore")) ∧
      (matchesPatterns f.path cfg.overridePatterns = true →
        matchesPatterns f.path cfg.excludePatterns = false →
        shouldIncludeFile cfg f = (true, "File in git repository")) := by
  intro cfg f rc hacc halways hsize hrepo hgd hresp hign
  constructor
  · intro hov
    simp only [shouldIncludeFile, hacc, halways, hsize, hrepo, shouldIncludeGitFile, hgd,
      hresp, hign, hov, Bool.not_false, Bool.and_true, Bool.true_and, if_false,
      Bool.false_eq_true, if_true]
  · intro hov hexcl
    simp only [shouldIncludeFile, hacc, halways, hsize, hrepo, shouldIncludeGitFile, hgd,
      hresp, hign, hov, hexcl, Bool.not_true, Bool.and_false, Bool.true_and, if_false,
      Bool.false_eq_true, if_true]

/-- Witness for `gitignoreOverrideDecision`: the gitignored `/repo/debug.log`
matches no override pattern and is excluded as gitignored; the gitignored
`/repo/.env` matches the `**/.env` override and is included. -/
theorem gitignoreOverrideDecisionWitness :
    shouldIncludeFile cfgGit fDebugLog = (false, "File ignored by .gitignore") ∧
    shouldIncludeFile cfgGit fEnv = (true, "File in git repository") :=
  ⟨(gitignoreOverrideDecision cfgGit fDebugLog ⟨false, true⟩ rfl (by decide) rfl rfl rfl rfl
      rfl).1 (by decide),
   (gitignoreOverrideDecision cfgGit fEnv ⟨false, true⟩ rfl (by decide) rfl rfl rfl rfl
      rfl).2 (by decide) (by decide)⟩
